import Mathlib

/-!
# Verification of `analyze_quiz.py`

A shallow embedding of the quiz-analysis program: a run segmenter over a
stream of `(respondent, question, answer)` rows, a per-run scorer, a
consistency analyzer, and the reporting pipeline, together with theorems
settling the specification's claims about them.

Conventions of the embedding:
* a raw input row is a `List String` (the record source yields rows of
  string fields; CSV mechanics are outside the program under study);
* Python dictionaries that the program fills by insertion are association
  lists that preserve insertion order and overwrite in place, matching
  `dict` semantics;
* the Python exceptions the program can raise (`ValueError` from `int`,
  `IndexError` from `[0]` on an empty list, `ZeroDivisionError`) become
  `Except.error` values carrying the exception name.
-/

namespace Quiz

/-- A run: the program's `current_run` dictionary, question number → answer.
Insertion ordered, mirroring a Python `dict`. -/
abbrev Run := List (Int × String)

/-- `d[q] = a` on a Python dict: overwrite in place if the key is present
(keeping its position), otherwise append at the end. -/
def runInsert (r : Run) (q : Int) (a : String) : Run :=
  if r.any (fun p => p.1 = q) then
    r.map (fun p => if p.1 = q then (p.1, a) else p)
  else
    r ++ [(q, a)]

/-- `run.get(q)` on a Python dict: `None` when absent. -/
def runGet (r : Run) (q : Int) : Option String :=
  (r.find? (fun p => p.1 = q)).map (fun p => p.2)

/-- `run.get(q, d)` on a Python dict: default `d` when absent. -/
def runGetD (r : Run) (q : Int) (d : String) : String :=
  (runGet r q).getD d

/-- The `models` defaultdict: respondent key → list of runs, in order of
first appearance.  The key is `Option String` because the program's
`current_model` starts as `None`. -/
abbrev Models := List (Option String × List Run)

/-- `models[m].append(r)` on a `defaultdict(list)`: append to the existing
entry, or create a new entry at the end holding `[r]`. -/
def modelsAppend (ms : Models) (m : Option String) (r : Run) : Models :=
  if ms.any (fun p => p.1 = m) then
    ms.map (fun p => if p.1 = m then (p.1, p.2 ++ [r]) else p)
  else
    ms ++ [(m, [r])]

/-- Python's `str.strip()`: remove leading and trailing whitespace. -/
def pyStrip (s : String) : String :=
  ⟨((s.toList.dropWhile Char.isWhitespace).reverse.dropWhile Char.isWhitespace).reverse⟩

/-- Model of Python's built-in `int(s)` on an already-stripped string:
an optional sign followed by a non-empty digit string; anything else
raises `ValueError` (here: `none`). -/
def digitsToNat (l : List Char) : Option Nat :=
  if l ≠ [] ∧ l.all Char.isDigit then
    some (l.foldl (fun acc c => acc * 10 + (c.toNat - 48)) 0)
  else
    none

/-- Python `int(s)` for stripped `s`, as an `Option Int`. -/
def pyInt (s : String) : Option Int :=
  match s.toList with
  | '-' :: rest => (digitsToNat rest).map (fun n => -(n : Int))
  | '+' :: rest => (digitsToNat rest).map (fun n => (n : Int))
  | l => (digitsToNat l).map (fun n => (n : Int))

/-- The mutable state of `parse_results`' loop: the `models` accumulator,
`current_run`, and `current_model`. -/
structure ParseState where
  models : Models
  currentRun : Run
  currentModel : Option String
  deriving DecidableEq, Repr

/-- The loop body of `parse_results` for a single row.
`if len(row) != 3: continue`, then
`model, q_num, answer = row[0].strip(), int(row[1].strip()), row[2].strip()`
(a `ValueError` from `int` aborts the program), then the boundary test
`if current_model != model or (q_num == 1 and current_run)` with its
flush/reset, and finally `current_run[q_num] = answer`. -/
def parseStep (st : ParseState) (row : List String) : Except String ParseState :=
  match row with
  | [rawModel, rawQ, rawAnswer] =>
    match pyInt (pyStrip rawQ) with
    | none => .error "ValueError"
    | some qNum =>
      let model := pyStrip rawModel
      let answer := pyStrip rawAnswer
      if st.currentModel ≠ some model ∨ (qNum = 1 ∧ st.currentRun ≠ []) then
        let models' :=
          if st.currentRun ≠ [] then modelsAppend st.models st.currentModel st.currentRun
          else st.models
        .ok ⟨models', runInsert [] qNum answer, some model⟩
      else
        .ok ⟨st.models, runInsert st.currentRun qNum answer, st.currentModel⟩
  | _ => .ok st

/-- The flush after the loop: `if current_run: models[current_model].append(current_run)`. -/
def finishParse (st : ParseState) : Models :=
  if st.currentRun ≠ [] then modelsAppend st.models st.currentModel st.currentRun
  else st.models

/-- Initial loop state: `models = defaultdict(list)`, `current_run = {}`,
`current_model = None`. -/
def initState : ParseState := ⟨[], [], none⟩

/-- The `for row in reader` loop: run `parseStep` over the rows in order,
propagating an uncaught `ValueError`. -/
def parseFold (st : ParseState) : List (List String) → Except String ParseState
  | [] => .ok st
  | row :: rest =>
    match parseStep st row with
    | .error e => .error e
    | .ok st' => parseFold st' rest

/-- `parse_results`, over the row stream the record source yields. -/
def parse_results (rows : List (List String)) : Except String Models :=
  match parseFold initState rows with
  | .error e => .error e
  | .ok st => .ok (finishParse st)

/-- `calculate_score`: `{'Agree': 20, 'Maybe': 10, 'Disagree': 0}.get(answer, 0)`. -/
def calculate_score (answer : String) : Nat :=
  if answer = "Agree" then 20
  else if answer = "Maybe" then 10
  else if answer = "Disagree" then 0
  else 0

/-- `calculate_run_scores`: `x` sums questions 1–5, `y` questions 6–10,
each looked up with default `'Maybe'`. -/
def calculate_run_scores (run : Run) : Nat × Nat :=
  (((List.range' 1 5).map (fun q => calculate_score (runGetD run (q : Int) "Maybe"))).sum,
   ((List.range' 6 5).map (fun q => calculate_score (runGetD run (q : Int) "Maybe"))).sum)

/-- `len(set(answers))`: the number of distinct values in the list. -/
def pySetSize (l : List (Option String)) : Nat :=
  l.dedup.length

/-- One iteration of the `for q in range(1, 11)` loop of `analyze_consistency`:
collect `[run.get(q) for run in runs]` and, when more than one distinct value
appears, count the question and record it with its answers. -/
def consisStep (runs : List Run) (acc : Nat × List (Int × List (Option String)))
    (q : Nat) : Nat × List (Int × List (Option String)) :=
  let answers := runs.map (fun run => runGet run (q : Int))
  if pySetSize answers > 1 then (acc.1 + 1, acc.2 ++ [((q : Int), answers)])
  else acc

/-- `analyze_consistency`: returns `(is_consistent, diff_count, varying_questions)`. -/
def analyze_consistency (runs : List Run) :
    Bool × Nat × List (Int × List (Option String)) :=
  if runs.length ≤ 1 then (true, 0, [])
  else
    let res := (List.range' 1 10).foldl (consisStep runs) (0, [])
    (res.1 == 0, res.1, res.2)

/-- Python `round(num / den)` for natural `num` and positive `den`:
nearest integer, ties to even.  An exact-half quotient of small integers
is exactly representable in binary floating point, so the float division
in the source does not disturb the tie-breaking this models. -/
def pyRound (num den : Nat) : Nat :=
  let q := num / den
  let r := num % den
  if 2 * r < den then q
  else if 2 * r > den then q + 1
  else if q % 2 = 0 then q else q + 1

/-- The data `main` computes and prints (formatting elided): per-respondent
consistency triples, the most/least consistent respondent, and per-respondent
run scores with rounded averages. -/
structure Report where
  consistency : List (Option String × (Bool × Nat × List (Int × List (Option String))))
  mostConsistent : Option String
  leastConsistent : Option String
  scores : List (Option String × (List (Nat × Nat) × Nat × Nat))

/-- The score section of `main` for one respondent: each run's `(x, y)`,
then `round(sum(all_x)/len(all_x))` and the same for `y`.  An empty run
list would raise `ZeroDivisionError`. -/
def scoreSection (entry : Option String × List Run) :
    Except String (Option String × (List (Nat × Nat) × Nat × Nat)) :=
  let rs := entry.2.map calculate_run_scores
  if rs.length = 0 then .error "ZeroDivisionError"
  else
    .ok (entry.1, (rs, pyRound (rs.map (fun p => p.1)).sum rs.length,
                       pyRound (rs.map (fun p => p.2)).sum rs.length))

/-- The score loop of `main` over all respondents, in dictionary order. -/
def scoreSections :
    List (Option String × List Run) →
      Except String (List (Option String × (List (Nat × Nat) × Nat × Nat)))
  | [] => .ok []
  | entry :: rest =>
    match scoreSection entry with
    | .error e => .error e
    | .ok s =>
      match scoreSections rest with
      | .error e => .error e
      | .ok ss => .ok (s :: ss)

/-- `main` (with printing elided): parse, analyze consistency per respondent,
rank by `diff_count` with Python's stable `sorted` (`[0]` on an empty
ranking raises `IndexError`), then compute the score section. -/
def mainReport (rows : List (List String)) : Except String Report :=
  match parse_results rows with
  | .error e => .error e
  | .ok models =>
    let consistency := models.map (fun p => (p.1, analyze_consistency p.2))
    match consistency.mergeSort (fun a b => a.2.2.1 ≤ b.2.2.1) with
    | [] => .error "IndexError"
    | first :: rest =>
      match scoreSections models with
      | .error e => .error e
      | .ok scores => .ok ⟨consistency, first.1, (rest.getLastD first).1, scores⟩

/-! ## Spec-side definitions used to state the claims -/

/-- Spec-side reading of a disagreement: at question `q` the runs "do not
all hold the same value", a missing answer counting as a value of its own. -/
def disagreesAt (runs : List Run) (q : Int) : Prop :=
  ∃ r₁ ∈ runs, ∃ r₂ ∈ runs, runGet r₁ q ≠ runGet r₂ q

instance (runs : List Run) (q : Int) : Decidable (disagreesAt runs q) := by
  unfold disagreesAt; infer_instance

/-- Spec-side: `a` is the arithmetic mean of a total `s` over `n` items,
rounded to the nearest integer with an exact-half mean resolved to the
even integer: `a` is within half of `s / n`, strictly within half when
the mean is not an exact half, and even when it is. -/
def isBankersRoundedMean (s n a : Nat) : Prop :=
  2 * ((a : Int) * n - s).natAbs ≤ n ∧
  (2 * (s % n) ≠ n → 2 * ((a : Int) * n - s).natAbs < n) ∧
  (2 * (s % n) = n → a % 2 = 0)

/-! ## General lemmas about the segmenter loop -/

/-- A row that does not have exactly three fields leaves the loop state
unchanged (`continue`). -/
theorem parseStep_skip (st : ParseState) (row : List String) (h : row.length ≠ 3) :
    parseStep st row = .ok st := by
  match row with
  | [] => rfl
  | [_] => rfl
  | [_, _] => rfl
  | [_, _, _] => exact absurd rfl h
  | _ :: _ :: _ :: _ :: _ => rfl

/-- Running the loop over a concatenation runs it over the pieces in turn. -/
theorem parseFold_append (st : ParseState) (l₁ l₂ : List (List String)) :
    parseFold st (l₁ ++ l₂) =
      match parseFold st l₁ with
      | .error e => .error e
      | .ok st' => parseFold st' l₂ := by
  induction l₁ generalizing st with
  | nil => rfl
  | cons row rest ih =>
    simp only [List.cons_append, parseFold]
    cases parseStep st row with
    | error e => rfl
    | ok st' => exact ih st'

/-- Invariant preservation along the loop: any property of the state that
every processed row preserves holds at the end. -/
theorem parseFold_induction (P : ParseState → Prop) (rows : List (List String))
    (st st' : ParseState) (hst : P st)
    (hstep : ∀ s row s', row ∈ rows → P s → parseStep s row = .ok s' → P s')
    (hrun : parseFold st rows = .ok st') : P st' := by
  induction rows generalizing st with
  | nil =>
    simp only [parseFold] at hrun
    cases hrun
    exact hst
  | cons row rest ih =>
    simp only [parseFold] at hrun
    cases hstep' : parseStep st row with
    | error e => rw [hstep'] at hrun; cases hrun
    | ok s₁ =>
      rw [hstep'] at hrun
      exact ih s₁ (hstep st row s₁ (by simp) hst hstep')
        (fun s r s₂ hr => hstep s r s₂ (by simp [hr])) hrun

/-! ## The consistency analyzer's loop, characterized -/

/-- `len(set(l)) > 1` says exactly that `l` holds two different values. -/
theorem pySetSize_gt_one_iff (l : List (Option String)) :
    1 < pySetSize l ↔ ∃ a ∈ l, ∃ b ∈ l, a ≠ b := by
  unfold pySetSize
  constructor
  · intro h
    rcases hd : l.dedup with _ | ⟨a, _ | ⟨b, t⟩⟩
    · rw [hd] at h; simp at h
    · rw [hd] at h; simp at h
    · refine ⟨a, List.mem_dedup.1 (hd ▸ List.mem_cons_self _ _),
        b, List.mem_dedup.1 (hd ▸ List.mem_cons_of_mem _ (List.mem_cons_self _ _)), ?_⟩
      have hnd := l.nodup_dedup
      rw [hd] at hnd
      intro hab
      exact (List.nodup_cons.1 hnd).1 (hab ▸ List.mem_cons_self _ _)
  · rintro ⟨a, ha, b, hb, hab⟩
    have ha' := List.mem_dedup.2 ha
    have hb' := List.mem_dedup.2 hb
    rcases hd : l.dedup with _ | ⟨x, _ | ⟨y, t⟩⟩
    · rw [hd] at ha'; simp at ha'
    · rw [hd] at ha' hb'
      simp at ha' hb'
      exact absurd (ha'.trans hb'.symm) hab
    · simp [hd]

/-- The loop condition of `analyze_consistency` at question `q` holds
exactly when the runs disagree there. -/
theorem pySetSize_map_iff (runs : List Run) (q : Int) :
    1 < pySetSize (runs.map (fun run => runGet run q)) ↔ disagreesAt runs q := by
  rw [pySetSize_gt_one_iff]
  constructor
  · rintro ⟨a, ha, b, hb, hab⟩
    obtain ⟨r₁, hr₁, rfl⟩ := List.mem_map.1 ha
    obtain ⟨r₂, hr₂, rfl⟩ := List.mem_map.1 hb
    exact ⟨r₁, hr₁, r₂, hr₂, hab⟩
  · rintro ⟨r₁, hr₁, r₂, hr₂, hne⟩
    exact ⟨runGet r₁ q, List.mem_map_of_mem _ hr₁, runGet r₂ q, List.mem_map_of_mem _ hr₂, hne⟩

/-- Unrolling the analyzer's loop: the count of disagreements and the list
of varying questions it accumulates. -/
theorem consisStep_foldl (runs : List Run) (qs : List Nat) (n : Nat)
    (acc : List (Int × List (Option String))) :
    qs.foldl (consisStep runs) (n, acc) =
      (n + qs.countP (fun q => decide (disagreesAt runs (q : Int))),
       acc ++ qs.filterMap (fun q =>
         if disagreesAt runs (q : Int) then
           some ((q : Int), runs.map (fun run => runGet run (q : Int))) else none)) := by
  induction qs generalizing n acc with
  | nil => simp
  | cons q rest ih =>
    simp only [List.foldl_cons, List.countP_cons, List.filterMap_cons, consisStep]
    by_cases hd : disagreesAt runs (q : Int)
    · rw [if_pos ((pySetSize_map_iff runs (q : Int)).2 hd)]
      rw [ih]
      refine Prod.ext ?_ ?_ <;> simp [hd]
      omega
    · rw [if_neg (fun hgt => hd ((pySetSize_map_iff runs (q : Int)).1 hgt))]
      rw [ih]
      refine Prod.ext ?_ ?_ <;> simp [hd]

/-! ## Dictionary-update lemmas -/

/-- A key present after `current_run[q] = answer` is the assigned key or
was already present. -/
theorem runInsert_mem (r : Run) (q : Int) (a : String) :
    ∀ qa ∈ runInsert r q a, qa.1 = q ∨ qa ∈ r := by
  intro qa hqa
  unfold runInsert at hqa
  split at hqa
  · obtain ⟨p, hp, hpe⟩ := List.mem_map.1 hqa
    by_cases hpq : p.1 = q
    · left; rw [← hpe]; simp [hpq]
    · right; rw [← hpe]; simp [hpq]; exact hp
  · rcases List.mem_append.1 hqa with h | h
    · right; exact h
    · left; simp at h; simp [h]

/-- A run found anywhere after `models[m].append(r)` is an old run or `r`
itself. -/
theorem modelsAppend_mem (ms : Models) (m : Option String) (r : Run) :
    ∀ p ∈ modelsAppend ms m r, ∀ x ∈ p.2, (∃ p₀ ∈ ms, x ∈ p₀.2) ∨ x = r := by
  intro p hp x hx
  unfold modelsAppend at hp
  split at hp
  · obtain ⟨p₀, hp₀, hpe⟩ := List.mem_map.1 hp
    by_cases hm : p₀.1 = m
    · rw [← hpe] at hx
      simp only [hm, if_pos] at hx
      rcases List.mem_append.1 hx with h | h
      · exact Or.inl ⟨p₀, hp₀, h⟩
      · simp at h; exact Or.inr h
    · rw [← hpe] at hx
      simp only [hm, if_neg, ite_false] at hx
      exact Or.inl ⟨p₀, hp₀, hx⟩
  · rcases List.mem_append.1 hp with h | h
    · exact Or.inl ⟨p, h, hx⟩
    · simp at h
      rw [h] at hx
      simp at hx
      exact Or.inr hx

/-- `models[m].append(r)` keeps every per-respondent run list non-empty. -/
theorem modelsAppend_ne_nil (ms : Models) (m : Option String) (r : Run)
    (h : ∀ p ∈ ms, p.2 ≠ []) : ∀ p ∈ modelsAppend ms m r, p.2 ≠ [] := by
  intro p hp
  unfold modelsAppend at hp
  split at hp
  · obtain ⟨p₀, hp₀, hpe⟩ := List.mem_map.1 hp
    by_cases hm : p₀.1 = m
    · rw [← hpe]; simp [hm]
    · rw [← hpe]; simp [hm]; exact h p₀ hp₀
  · rcases List.mem_append.1 hp with hmem | hmem
    · exact h p hmem
    · simp at hmem; simp [hmem]

/-! ## Rounding -/

/-- `pyRound` computes exactly the round-half-to-even mean. -/
theorem pyRound_isBankersRoundedMean (s n : Nat) (hn : 0 < n) :
    isBankersRoundedMean s n (pyRound s n) := by
  obtain ⟨q, r, hqr, hrlt⟩ : ∃ q r, s = n * q + r ∧ r < n :=
    ⟨s / n, s % n, (Nat.div_add_mod s n).symm, Nat.mod_lt _ hn⟩
  have hdiv : s / n = q := by
    rw [hqr, Nat.mul_add_div hn, Nat.div_eq_of_lt hrlt, Nat.add_zero]
  have hmod : s % n = r := by
    rw [hqr, Nat.mul_add_mod, Nat.mod_eq_of_lt hrlt]
  have hcast : (s : Int) = (n : Int) * q + r := by rw [hqr]; push_cast; ring
  unfold isBankersRoundedMean pyRound
  dsimp only
  rw [hdiv, hmod]
  split_ifs with h1 h2 h3 <;>
    · rw [hcast]
      push_cast
      ring_nf
      omega

/-! ## Claim theorems -/

/-- C1: for every record, the segmenter crosses a boundary exactly when the
record's respondent differs from the current respondent or the question
number is 1 with a non-empty current run; on a crossing with a non-empty
current run, that run is appended under the respondent active before the
record, and only then is the run reset and the respondent updated; on a
crossing with an empty run nothing is appended; with no crossing the state
only gains the new answer. -/
theorem boundary_step_spec (st : ParseState) (f0 f1 f2 : String) (q : Int)
    (hq : pyInt (pyStrip f1) = some q) :
    (st.currentModel ≠ some (pyStrip f0) ∨ (q = 1 ∧ st.currentRun ≠ []) →
      st.currentRun ≠ [] →
      parseStep st [f0, f1, f2] =
        .ok ⟨modelsAppend st.models st.currentModel st.currentRun,
             [(q, pyStrip f2)], some (pyStrip f0)⟩) ∧
    (st.currentModel ≠ some (pyStrip f0) ∨ (q = 1 ∧ st.currentRun ≠ []) →
      st.currentRun = [] →
      parseStep st [f0, f1, f2] =
        .ok ⟨st.models, [(q, pyStrip f2)], some (pyStrip f0)⟩) ∧
    (¬(st.currentModel ≠ some (pyStrip f0) ∨ (q = 1 ∧ st.currentRun ≠ [])) →
      parseStep st [f0, f1, f2] =
        .ok ⟨st.models, runInsert st.currentRun q (pyStrip f2), st.currentModel⟩) := by
  refine ⟨fun hcross hrun => ?_, fun hcross hrun => ?_, fun hnc => ?_⟩ <;>
    simp only [parseStep, hq]
  · rw [if_pos hcross, if_pos hrun]
    simp [runInsert]
  · rw [if_pos hcross, if_neg (by simp [hrun])]
    simp [runInsert]
  · rw [if_neg hnc]

/-- C1 witness: a concrete respondent change appends the old run under the
old respondent and restarts the run for the new one. -/
theorem boundary_step_spec_witness :
    parseStep ⟨[], [(1, "Agree")], some "A"⟩ ["B", "2", "Maybe"] =
      .ok ⟨modelsAppend [] (some "A") [(1, "Agree")], [(2, "Maybe")], some "B"⟩ :=
  (boundary_step_spec ⟨[], [(1, "Agree")], some "A"⟩ "B" "2" "Maybe" 2 rfl).1
    (by decide) (by decide)

/-- C2: a single respondent answering questions `[1,2,3,1,2,3]` (any
answers) yields exactly two runs, `{1,2,3}` from the first three records
and `{1,2,3}` from the last three. -/
theorem wraparound_two_runs (name a1 a2 a3 a4 a5 a6 : String) :
    parse_results
        [[name, "1", a1], [name, "2", a2], [name, "3", a3],
         [name, "1", a4], [name, "2", a5], [name, "3", a6]] =
      .ok [(some (pyStrip name),
        [[(1, pyStrip a1), (2, pyStrip a2), (3, pyStrip a3)],
         [(1, pyStrip a4), (2, pyStrip a5), (3, pyStrip a6)]])] := by
  simp [parse_results, parseFold, parseStep, initState, finishParse, runInsert, modelsAppend,
    show pyInt (pyStrip "1") = some 1 from rfl,
    show pyInt (pyStrip "2") = some 2 from rfl,
    show pyInt (pyStrip "3") = some 3 from rfl]

/-- C3: the scorer treats a question absent from a run as the literal
answer `"Maybe"`, worth 10 points, while an unrecognized answer string
present at the question scores 0; the run answering questions 1–5 with
`"Agree"` and omitting 6–10 scores `x = 100`, `y = 50`. -/
theorem scorer_default_paths (r : Run) (q : Int) :
    (runGet r q = none → calculate_score (runGetD r q "Maybe") = 10) ∧
    (∀ a, runGet r q = some a → a ≠ "Agree" → a ≠ "Maybe" → a ≠ "Disagree" →
      calculate_score (runGetD r q "Maybe") = 0) ∧
    calculate_run_scores
        [(1, "Agree"), (2, "Agree"), (3, "Agree"), (4, "Agree"), (5, "Agree")] =
      (100, 50) := by
  refine ⟨fun h => ?_, fun a ha h1 h2 h3 => ?_, by decide⟩
  · simp [runGetD, h, calculate_score]
  · simp [runGetD, ha, calculate_score, h1, h2, h3]

/-- C3 witness: question 6 absent from the empty run scores 10; an
unrecognized label scores 0; the concrete five-`"Agree"` run scores
`(100, 50)`. -/
theorem scorer_default_paths_witness :
    calculate_score (runGetD [] (6 : Int) "Maybe") = 10 ∧
    calculate_score (runGetD [((1 : Int), "Huh")] (1 : Int) "Maybe") = 0 ∧
    calculate_run_scores
        [(1, "Agree"), (2, "Agree"), (3, "Agree"), (4, "Agree"), (5, "Agree")] =
      (100, 50) :=
  ⟨(scorer_default_paths [] 6).1 rfl,
   (scorer_default_paths [((1 : Int), "Huh")] 1).2.1 "Huh" rfl
     (by decide) (by decide) (by decide),
   (scorer_default_paths [] 0).2.2⟩

/-- C4: a run list with at most one element is reported consistent with
count 0 and no varying questions; for more than one run the disagreement
count is the number of questions in 1..10 where the runs do not all hold
the same value (a missing answer being a distinct value), `is_consistent`
holds exactly when that count is 0, and each varying question is recorded
with the ordered per-run answer list. -/
theorem consistency_report_spec (runs : List Run) :
    (runs.length ≤ 1 → analyze_consistency runs = (true, 0, [])) ∧
    (1 < runs.length →
      (analyze_consistency runs).2.1 =
        (List.range' 1 10).countP (fun q => decide (disagreesAt runs (q : Int)))) ∧
    ((analyze_consistency runs).1 = true ↔ (analyze_consistency runs).2.1 = 0) ∧
    (1 < runs.length →
      (analyze_consistency runs).2.2 =
        (List.range' 1 10).filterMap (fun q =>
          if disagreesAt runs (q : Int) then
            some ((q : Int), runs.map (fun run => runGet run (q : Int)))
          else none)) := by
  by_cases hlen : runs.length ≤ 1
  · refine ⟨fun _ => ?_, fun h => absurd h (by omega), ?_, fun h => absurd h (by omega)⟩ <;>
      simp [analyze_consistency, hlen]
  · have h1 : ¬ runs.length ≤ 1 := hlen
    refine ⟨fun h => absurd h hlen, fun _ => ?_, ?_, fun _ => ?_⟩ <;>
      simp only [analyze_consistency, if_neg h1, consisStep_foldl, Nat.zero_add,
        List.nil_append, beq_iff_eq]

/-- C4 witness: two concrete one-question runs that disagree at question 1,
and the empty run list. -/
theorem consistency_report_spec_witness :
    analyze_consistency [] = (true, 0, []) ∧
    (analyze_consistency [[(1, "Agree")], [(1, "Maybe")]]).2.1 =
      (List.range' 1 10).countP
        (fun q => decide (disagreesAt [[(1, "Agree")], [(1, "Maybe")]] (q : Int))) ∧
    (analyze_consistency [[(1, "Agree")], [(1, "Maybe")]]).2.2 =
      (List.range' 1 10).filterMap (fun q =>
        if disagreesAt [[(1, "Agree")], [(1, "Maybe")]] (q : Int) then
          some ((q : Int),
            ([[(1, "Agree")], [(1, "Maybe")]] : List Run).map
              (fun run => runGet run (q : Int)))
        else none) :=
  ⟨(consistency_report_spec []).1 (by decide),
   (consistency_report_spec [[(1, "Agree")], [(1, "Maybe")]]).2.1 (by decide),
   (consistency_report_spec [[(1, "Agree")], [(1, "Maybe")]]).2.2.2 (by decide)⟩

/-- C5: a malformed row (field count other than three) is silently skipped:
segmentation of a stream containing it equals segmentation with it removed. -/
theorem malformed_row_skipped (pre post : List (List String)) (bad : List String)
    (hbad : bad.length ≠ 3) :
    parse_results (pre ++ bad :: post) = parse_results (pre ++ post) := by
  simp only [parse_results, parseFold_append]
  cases parseFold initState pre with
  | error e => rfl
  | ok st => simp only [parseFold, parseStep_skip st bad hbad]

/-- C5 witness: a concrete 2-field row interleaved among valid rows changes
nothing. -/
theorem malformed_row_skipped_witness :
    parse_results [["A", "1", "Agree"], ["oops"], ["A", "2", "Maybe"]] =
      parse_results [["A", "1", "Agree"], ["A", "2", "Maybe"]] :=
  malformed_row_skipped [["A", "1", "Agree"]] [["A", "2", "Maybe"]] ["oops"] (by decide)

/-- C6: a 3-field row whose question field is not a numeral makes parsing
abort with an error, and the report pipeline then produces no report. -/
theorem nonnumeric_question_fatal (pre post : List (List String)) (f0 f1 f2 : String)
    (hq : pyInt (pyStrip f1) = none) :
    (∃ e, parse_results (pre ++ [f0, f1, f2] :: post) = .error e) ∧
    (∃ e, mainReport (pre ++ [f0, f1, f2] :: post) = .error e) := by
  have hparse : ∃ e, parse_results (pre ++ [f0, f1, f2] :: post) = .error e := by
    simp only [parse_results, parseFold_append]
    cases parseFold initState pre with
    | error e => exact ⟨e, rfl⟩
    | ok st =>
      refine ⟨"ValueError", ?_⟩
      simp only [parseFold, parseStep, hq]
  obtain ⟨e, he⟩ := hparse
  exact ⟨⟨e, he⟩, ⟨e, by simp only [mainReport, he]⟩⟩

/-- C6 witness: a non-numeric question number on a concrete stream aborts
both parsing and the report. -/
theorem nonnumeric_question_fatal_witness :
    (∃ e, parse_results [["A", "1", "Agree"], ["A", "two", "Maybe"]] = .error e) ∧
    (∃ e, mainReport [["A", "1", "Agree"], ["A", "two", "Maybe"]] = .error e) :=
  nonnumeric_question_fatal [["A", "1", "Agree"]] [] "A" "two" "Maybe" rfl

/-- C7: an empty stream yields no respondents, and whenever segmentation
yields no respondents the pipeline fails while ranking respondents by
disagreement count (`IndexError` on the empty ranking) instead of
producing a report. -/
theorem empty_input_rank_fatal :
    parse_results [] = .ok ([] : Models) ∧
    ∀ rows, parse_results rows = .ok ([] : Models) →
      mainReport rows = .error "IndexError" := by
  refine ⟨rfl, fun rows h => ?_⟩
  simp only [mainReport, h, List.map_nil, List.mergeSort_nil]

/-- C7 witness: the empty stream itself hits the ranking failure. -/
theorem empty_input_rank_fatal_witness :
    mainReport [] = .error "IndexError" :=
  empty_input_rank_fatal.2 [] empty_input_rank_fatal.1

/-- C8: the reported per-respondent averages are `round(sum/len)` on each
axis, and that rounding is the arithmetic mean rounded to the nearest
integer with exact halves resolved to the even integer; in particular two
runs scoring 10 and 11 on an axis average to 10. -/
theorem reported_average_half_even (m : Option String) (runs : List Run)
    (hne : runs ≠ []) :
    scoreSection (m, runs) =
      .ok (m, (runs.map calculate_run_scores,
        pyRound ((runs.map (fun r => (calculate_run_scores r).1)).sum) runs.length,
        pyRound ((runs.map (fun r => (calculate_run_scores r).2)).sum) runs.length)) ∧
    (∀ s n : Nat, 0 < n → isBankersRoundedMean s n (pyRound s n)) ∧
    pyRound (10 + 11) 2 = 10 := by
  refine ⟨?_, fun s n hn => pyRound_isBankersRoundedMean s n hn, by decide⟩
  simp [scoreSection, hne, List.map_map, Function.comp]
  exact ⟨rfl, rfl⟩

/-- C8 witness: scores 10 and 11 have sum 21 over 2 runs; the reported
average rounds the exact-half mean 10.5 down to the even 10. -/
theorem reported_average_half_even_witness :
    isBankersRoundedMean 21 2 (pyRound 21 2) ∧ pyRound (10 + 11) 2 = 10 :=
  ⟨(reported_average_half_even (some "A") [[(1, "Agree")]] (by decide)).2.1
      21 2 (by decide),
   (reported_average_half_even (some "A") [[(1, "Agree")]] (by decide)).2.2⟩

/-- C9 counterexample: the claim that run keys always stay within 1..10 is
false — the stream may supply out-of-range question numbers and the
segmenter stores them unchanged, as with question number 11 here. -/
theorem run_keys_subset_counterexample :
    ¬ ∀ (rows : List (List String)) (ms : Models),
        parse_results rows = .ok ms →
        ∀ p ∈ ms, ∀ r ∈ p.2, ∀ qa ∈ r, 1 ≤ qa.1 ∧ qa.1 ≤ 10 := by
  intro h
  have h11 := h [["A", "11", "Agree"]] [(some "A", [[(11, "Agree")]])] rfl
    (some "A", [[(11, "Agree")]]) (List.mem_singleton.2 rfl)
    [(11, "Agree")] (List.mem_singleton.2 rfl) (11, "Agree") (List.mem_singleton.2 rfl)
  omega

/-- C9 (amended): every key of every produced run is a question number the
stream supplied; in particular, when all parsed question numbers of the
stream lie in 1..10, so do all run keys. -/
theorem run_keys_from_stream (rows : List (List String)) (ms : Models)
    (hok : parse_results rows = .ok ms)
    (hin : ∀ f0 f1 f2, [f0, f1, f2] ∈ rows →
      ∀ q, pyInt (pyStrip f1) = some q → 1 ≤ q ∧ q ≤ 10) :
    ∀ p ∈ ms, ∀ r ∈ p.2, ∀ qa ∈ r, 1 ≤ qa.1 ∧ qa.1 ≤ 10 := by
  have hfold : ∃ st, parseFold initState rows = .ok st ∧ ms = finishParse st := by
    unfold parse_results at hok
    cases hf : parseFold initState rows with
    | error e => rw [hf] at hok; cases hok
    | ok st => rw [hf] at hok; cases hok; exact ⟨st, rfl, rfl⟩
  obtain ⟨st, hst, hms⟩ := hfold
  set P : ParseState → Prop := fun s =>
    (∀ qa ∈ s.currentRun, 1 ≤ qa.1 ∧ qa.1 ≤ 10) ∧
    (∀ p ∈ s.models, ∀ r ∈ p.2, ∀ qa ∈ r, 1 ≤ qa.1 ∧ qa.1 ≤ 10) with hP
  have hfinal : P st := by
    refine parseFold_induction P rows initState st ⟨by simp [initState], by simp [initState]⟩
      ?_ hst
    intro s row s' hrow hPs hstep
    rcases row with _ | ⟨f0, _ | ⟨f1, _ | ⟨f2, _ | ⟨f3, rest⟩⟩⟩⟩
    · rw [parseStep_skip s _ (by simp)] at hstep; cases hstep; exact hPs
    · rw [parseStep_skip s _ (by simp)] at hstep; cases hstep; exact hPs
    · rw [parseStep_skip s _ (by simp)] at hstep; cases hstep; exact hPs
    · simp only [parseStep] at hstep
      cases hq : pyInt (pyStrip f1) with
      | none => rw [hq] at hstep; cases hstep
      | some q =>
        rw [hq] at hstep
        dsimp only at hstep
        have hqbound := hin f0 f1 f2 hrow q hq
        by_cases hcross : s.currentModel ≠ some (pyStrip f0) ∨ (q = 1 ∧ s.currentRun ≠ [])
        · rw [if_pos hcross] at hstep
          by_cases hrun : s.currentRun ≠ []
          · rw [if_pos hrun] at hstep
            cases hstep
            refine ⟨?_, ?_⟩
            · intro qa hqa
              rcases runInsert_mem [] q (pyStrip f2) qa hqa with hk | hk
              · rw [hk]; exact hqbound
              · simp at hk
            · intro p hp r hr qa hqa
              rcases modelsAppend_mem s.models s.currentModel s.currentRun p hp r hr
                with ⟨p₀, hp₀, hrp₀⟩ | hreq
              · exact hPs.2 p₀ hp₀ r hrp₀ qa hqa
              · exact hPs.1 qa (hreq ▸ hqa)
          · rw [if_neg hrun] at hstep
            cases hstep
            refine ⟨?_, hPs.2⟩
            intro qa hqa
            rcases runInsert_mem [] q (pyStrip f2) qa hqa with hk | hk
            · rw [hk]; exact hqbound
            · simp at hk
        · rw [if_neg hcross] at hstep
          cases hstep
          refine ⟨?_, hPs.2⟩
          intro qa hqa
          rcases runInsert_mem s.currentRun q (pyStrip f2) qa hqa with hk | hk
          · rw [hk]; exact hqbound
          · exact hPs.1 qa hk
    · rw [parseStep_skip s _ (by simp)] at hstep; cases hstep; exact hPs
  rw [hms]
  unfold finishParse
  split_ifs with hrun
  · intro p hp r hr qa hqa
    rcases modelsAppend_mem st.models st.currentModel st.currentRun p hp r hr
      with ⟨p₀, hp₀, hrp₀⟩ | hreq
    · exact hfinal.2 p₀ hp₀ r hrp₀ qa hqa
    · exact hfinal.1 qa (hreq ▸ hqa)
  · exact hfinal.2

/-- C9 amended witness: an in-range stream gives in-range keys. -/
theorem run_keys_from_stream_witness : 1 ≤ (1 : Int) ∧ (1 : Int) ≤ 10 :=
  run_keys_from_stream [["A", "1", "Agree"]] [(some "A", [[(1, "Agree")]])] rfl
    (by
      intro f0 f1 f2 hmem q hq
      simp at hmem
      rw [hmem.2.1] at hq
      rw [show pyInt (pyStrip "1") = some 1 from rfl] at hq
      cases hq
      exact ⟨by omega, by omega⟩)
    (some "A", [[(1, "Agree")]]) (List.mem_singleton.2 rfl)
    [(1, "Agree")] (List.mem_singleton.2 rfl) (1, "Agree") (List.mem_singleton.2 rfl)

/-- The score loop succeeds whenever every respondent has at least one run. -/
theorem scoreSections_ok (ms : List (Option String × List Run))
    (h : ∀ p ∈ ms, p.2 ≠ []) : ∃ ss, scoreSections ms = .ok ss := by
  induction ms with
  | nil => exact ⟨[], rfl⟩
  | cons entry rest ih =>
    obtain ⟨ss, hss⟩ := ih (fun p hp => h p (List.mem_cons_of_mem _ hp))
    have hne : entry.2 ≠ [] := h entry (List.mem_cons_self _ _)
    have hlen : ¬ (entry.2.map calculate_run_scores).length = 0 := by
      simp [List.length_eq_zero, hne]
    simp only [scoreSections, scoreSection]
    rw [if_neg hlen, hss]
    exact ⟨_, rfl⟩

/-- C10: every run the segmenter stores is a non-empty mapping and every
respondent it outputs owns at least one run; hence, whenever there is at
least one respondent, the per-respondent averaging never divides by zero
and the report is produced. -/
theorem segmenter_runs_nonempty (rows : List (List String)) (ms : Models)
    (hok : parse_results rows = .ok ms) :
    (∀ p ∈ ms, p.2 ≠ [] ∧ ∀ r ∈ p.2, r ≠ []) ∧
    (ms ≠ [] → ∃ rep, mainReport rows = .ok rep) := by
  have hfold : ∃ st, parseFold initState rows = .ok st ∧ ms = finishParse st := by
    unfold parse_results at hok
    cases hf : parseFold initState rows with
    | error e => rw [hf] at hok; cases hok
    | ok st => rw [hf] at hok; cases hok; exact ⟨st, rfl, rfl⟩
  obtain ⟨st, hst, hms⟩ := hfold
  set Q : ParseState → Prop :=
    fun s => ∀ p ∈ s.models, p.2 ≠ [] ∧ ∀ r ∈ p.2, r ≠ [] with hQ
  have hstepQ : ∀ (msx : Models) (m : Option String) (r : Run), r ≠ [] →
      (∀ p ∈ msx, p.2 ≠ [] ∧ ∀ x ∈ p.2, x ≠ []) →
      ∀ p ∈ modelsAppend msx m r, p.2 ≠ [] ∧ ∀ x ∈ p.2, x ≠ [] := by
    intro msx m r hr hQs p hp
    refine ⟨modelsAppend_ne_nil msx m r (fun p₀ hp₀ => (hQs p₀ hp₀).1) p hp, ?_⟩
    intro x hx
    rcases modelsAppend_mem msx m r p hp x hx with ⟨p₀, hp₀, hxp₀⟩ | hxeq
    · exact (hQs p₀ hp₀).2 x hxp₀
    · rw [hxeq]; exact hr
  have hfinalQ : Q st := by
    refine parseFold_induction Q rows initState st (by simp [initState, hQ]) ?_ hst
    intro s row s' _ hQs hstep
    rcases row with _ | ⟨f0, _ | ⟨f1, _ | ⟨f2, _ | ⟨f3, rest⟩⟩⟩⟩
    · rw [parseStep_skip s _ (by simp)] at hstep; cases hstep; exact hQs
    · rw [parseStep_skip s _ (by simp)] at hstep; cases hstep; exact hQs
    · rw [parseStep_skip s _ (by simp)] at hstep; cases hstep; exact hQs
    · simp only [parseStep] at hstep
      cases hq : pyInt (pyStrip f1) with
      | none => rw [hq] at hstep; cases hstep
      | some q =>
        rw [hq] at hstep
        dsimp only at hstep
        by_cases hcross : s.currentModel ≠ some (pyStrip f0) ∨ (q = 1 ∧ s.currentRun ≠ [])
        · rw [if_pos hcross] at hstep
          by_cases hrun : s.currentRun ≠ []
          · rw [if_pos hrun] at hstep
            cases hstep
            exact hstepQ s.models s.currentModel s.currentRun hrun hQs
          · rw [if_neg hrun] at hstep
            cases hstep
            exact hQs
        · rw [if_neg hcross] at hstep
          cases hstep
          exact hQs
    · rw [parseStep_skip s _ (by simp)] at hstep; cases hstep; exact hQs
  have hmsQ : ∀ p ∈ ms, p.2 ≠ [] ∧ ∀ r ∈ p.2, r ≠ [] := by
    rw [hms]
    unfold finishParse
    split_ifs with hrun
    · exact hstepQ st.models st.currentModel st.currentRun hrun hfinalQ
    · exact hfinalQ
  refine ⟨hmsQ, fun hne => ?_⟩
  simp only [mainReport, hok]
  have hsne : (ms.map (fun p => (p.1, analyze_consistency p.2))).mergeSort
      (fun a b => a.2.2.1 ≤ b.2.2.1) ≠ [] := by
    intro hnil
    have := congrArg List.length hnil
    rw [List.length_mergeSort, List.length_map] at this
    exact hne (List.length_eq_zero.1 this)
  obtain ⟨first, rest, hfr⟩ := List.exists_cons_of_ne_nil hsne
  rw [hfr]
  obtain ⟨ss, hss⟩ := scoreSections_ok ms (fun p hp => (hmsQ p hp).1)
  rw [hss]
  exact ⟨_, rfl⟩

/-- C10 witness: a one-record stream produces a full report. -/
theorem segmenter_runs_nonempty_witness :
    ∃ rep, mainReport [["A", "1", "Agree"]] = .ok rep :=
  (segmenter_runs_nonempty [["A", "1", "Agree"]]
      [(some "A", [[(1, "Agree")]])] rfl).2 (by decide)

end Quiz
